import Mathlib

/-!
HTTP Basic credentials of the sync client (`src/creds/httpcredentials.cpp`).

A shallow embedding of `Mirall::HttpCredentials` and of
`Mirall::HttpCredentialsAccessManager`.

* A `QString` is a `String`, a `QByteArray` a list of bytes.
* A member function is a function of the object's fields (`self`) that
  returns the updated fields, the updated `Account` it was handed, and the
  list of the effects it had on its collaborators, in program order: signals
  emitted, keychain jobs started, dialogs shown.
* An `Account*` argument is the value of the account it points to at the
  time of the call; `fetch`, which tests the pointer, takes an `Option`.
* `qDebug()` output and the deletion of heap objects are not modelled.
-/

namespace Mirall

/-! ## Collaborators -/

/-- The error of a keychain job, `QKeychain::Error`. -/
inductive KeychainError where
  | NoError
  | EntryNotFound
  | CouldNotDeleteEntry
  | AccessDeniedByUser
  | AccessDenied
  | NoBackendAvailable
  | NotImplemented
  | OtherError
  deriving DecidableEq

/-- The error of a network reply, `QNetworkReply::NetworkError`. -/
inductive NetworkError where
  | NoError
  | ConnectionRefusedError
  | RemoteHostClosedError
  | HostNotFoundError
  | TimeoutError
  | OperationCanceledError
  | SslHandshakeFailedError
  | TemporaryNetworkFailureError
  | UnknownNetworkError
  | ProxyConnectionRefusedError
  | ProxyConnectionClosedError
  | ProxyNotFoundError
  | ProxyTimeoutError
  | ProxyAuthenticationRequiredError
  | UnknownProxyError
  | ContentAccessDenied
  | ContentOperationNotPermittedError
  | ContentNotFoundError
  | AuthenticationRequiredError
  | ContentReSendError
  | UnknownContentError
  | ProtocolUnknownError
  | ProtocolInvalidOperationError
  | ProtocolFailure
  deriving DecidableEq

/-- What the code reads of a `QNetworkReply`: its `error()`. -/
structure QNetworkReply where
  error : NetworkError
  deriving DecidableEq

/-- The parts of the program the credentials code calls into and that are not
part of `httpcredentials.cpp`: the theme's application names and the key
derivation `keychainKey(url, user)` of `creds/credentialscommon`. -/
structure Env where
  appName : String
  appNameGUI : String
  keychainKey : String → String → String

/-- Embeds `QString::isEmpty`: the string has no characters. -/
def isEmpty (s : String) : Bool := decide (s = "")

/-- A `QSettings` object opened on one group: the keys it holds. -/
structure QSettings where
  keys : List String
  synced : Bool
  deriving DecidableEq

/-- Embeds `QSettings::contains(key)`. -/
def QSettings.contains (s : QSettings) (key : String) : Bool :=
  s.keys.contains key

/-- Embeds `QSettings::remove(key)`: removes the setting `key` and every setting
below it. -/
def QSettings.remove (s : QSettings) (key : String) : QSettings :=
  { s with
    keys := s.keys.filter (fun k => !(k == key || (key ++ "/").data.isPrefixOf k.data)),
    synced := false }

/-- Embeds `QSettings::sync()`. -/
def QSettings.sync (s : QSettings) : QSettings :=
  { s with synced := true }

/-- Modelled from the spec: the account object (`mirall/account.h`, absent from
the sources), as far as the credentials use it: its server URL, the account
config `getSetting(key) -> value` / `setSetting(key, value)` holding the
username, and the settings group in which a legacy plaintext secret may lie
(`none` when `settingsWithGroup` gives no settings object). -/
structure Account where
  url : String
  credentialSettings : List (String × String)
  settings : Option QSettings
  deriving DecidableEq

/-- Embeds `account->credentialSetting(key).toString()`: the value stored under
`key`, the empty string when there is none. -/
def Account.credentialSetting (a : Account) (key : String) : String :=
  match a.credentialSettings.lookup key with
  | some v => v
  | none => ""

/-- Embeds `account->setCredentialSetting(key, value)`. -/
def Account.setCredentialSetting (a : Account) (key value : String) : Account :=
  { a with
    credentialSettings :=
      (key, value) :: a.credentialSettings.filter (fun kv => !(kv.1 == key)) }

/-- Embeds `account->settingsWithGroup(group)`; the one group the code opens is the
application's. -/
def Account.settingsWithGroup (a : Account) (_group : String) : Option QSettings :=
  a.settings

/-- A `QKeychain::ReadPasswordJob` as `fetch` sets it up. -/
structure ReadPasswordJob where
  service : String
  insecureFallback : Bool
  key : String
  deriving DecidableEq

/-- A `QKeychain::WritePasswordJob` as `persist` sets it up. -/
structure WritePasswordJob where
  service : String
  insecureFallback : Bool
  key : String
  textData : String
  deriving DecidableEq

/-- A `QKeychain::DeletePasswordJob` as `invalidateToken` sets it up. -/
structure DeletePasswordJob where
  service : String
  settings : Option QSettings
  insecureFallback : Bool
  key : String
  deriving DecidableEq

/-- What a member function does to the world outside the object. -/
inductive Effect where
  | fetched
  | startRead (job : ReadPasswordJob)
  | startWrite (job : WritePasswordJob)
  | startDelete (job : DeletePasswordJob)
  | getText (title message : String)
  deriving DecidableEq

/-- The number of `fetched()` signals among the effects. -/
def countFetched (effects : List Effect) : Nat :=
  effects.count Effect.fetched

/-- The read jobs started among the effects. -/
def startedReads : List Effect → List ReadPasswordJob
  | [] => []
  | Effect.startRead job :: rest => job :: startedReads rest
  | _ :: rest => startedReads rest

/-- The write jobs started among the effects. -/
def startedWrites : List Effect → List WritePasswordJob
  | [] => []
  | Effect.startWrite job :: rest => job :: startedWrites rest
  | _ :: rest => startedWrites rest

/-- The delete jobs started among the effects. -/
def startedDeletes : List Effect → List DeletePasswordJob
  | [] => []
  | Effect.startDelete job :: rest => job :: startedDeletes rest
  | _ :: rest => startedDeletes rest

/-- The password dialogs shown among the effects. -/
def shownDialogs : List Effect → List (String × String)
  | [] => []
  | Effect.getText title message :: rest => (title, message) :: shownDialogs rest
  | _ :: rest => shownDialogs rest

/-! ## The credentials object -/

/-- The data members of `HttpCredentials`. -/
structure HttpCredentials where
  _user : String
  _password : String
  _ready : Bool
  _fetchJobInProgress : Bool
  deriving DecidableEq

/-- The result of a member function: the object, the account it was handed and
the effects, in program order. -/
structure Outcome where
  self : HttpCredentials
  account : Option Account
  effects : List Effect
  deriving DecidableEq

/-- Embeds `const char userC[] = "user"`. -/
def userC : String := "user"

/-- Embeds `HttpCredentials::HttpCredentials()`. The initialiser list names `_user`,
`_password` and `_ready` only; `_fetchJobInProgress` starts with whatever
value the object's storage gives it, the argument `indeterminate`. -/
def HttpCredentials.new (indeterminate : Bool) : HttpCredentials :=
  { _user := "", _password := "", _ready := false,
    _fetchJobInProgress := indeterminate }

/-- Embeds `HttpCredentials::HttpCredentials(const QString& user, const QString& password)`. -/
def HttpCredentials.newWith (user password : String) : HttpCredentials :=
  { _user := user, _password := password, _ready := true,
    _fetchJobInProgress := false }

/-- Embeds `HttpCredentials::user`. -/
def HttpCredentials.user (self : HttpCredentials) : String := self._user

/-- Embeds `HttpCredentials::password`. -/
def HttpCredentials.password (self : HttpCredentials) : String := self._password

/-- Embeds `HttpCredentials::ready`. -/
def HttpCredentials.ready (self : HttpCredentials) : Bool := self._ready

/-- Embeds `HttpCredentials::authType`. -/
def HttpCredentials.authType (_self : HttpCredentials) : String := "http"

/-- A credentials object seen through `AbstractCredentials*`: an
`HttpCredentials`, or an object of another credentials class. -/
inductive AbstractCredentials where
  | http (c : HttpCredentials)
  | other (authType : String)
  deriving DecidableEq

/-- Embeds `dynamic_cast<HttpCredentials*>(credentials)`: null for a null pointer
and for an object of another class. -/
def dynamicCastHttp : Option AbstractCredentials → Option HttpCredentials
  | some (AbstractCredentials.http c) => some c
  | _ => none

/-- Embeds `HttpCredentials::changed`. -/
def HttpCredentials.changed (self : HttpCredentials)
    (credentials : Option AbstractCredentials) : Bool :=
  match dynamicCastHttp credentials with
  | none => true
  | some other => if other.user ≠ self.user then true else false

/-- Embeds `HttpCredentials::fetchUser`: the object with `_user` read from the
account config (the function returns that `_user`). -/
def HttpCredentials.fetchUser (self : HttpCredentials) (account : Account) :
    HttpCredentials :=
  { self with _user := account.credentialSetting userC }

/-- The block of `fetch` that cleans a legacy plaintext password out of the
settings file. -/
def cleanLegacyPassword (env : Env) (account : Account) (kck : String) : Account :=
  let key := kck ++ "/data"
  match account.settingsWithGroup env.appName with
  | none => account
  | some settings =>
    if settings.contains key then
      { account with settings := some (((settings.remove key).remove kck).sync) }
    else
      account

/-- Embeds `HttpCredentials::fetch`. -/
def HttpCredentials.fetch (env : Env) (self : HttpCredentials)
    (account : Option Account) : Outcome :=
  match account with
  | none => { self := self, account := none, effects := [] }
  | some acc =>
    if self._fetchJobInProgress then
      { self := self, account := some acc, effects := [] }
    else
      let self1 := self.fetchUser acc
      let kck := env.keychainKey acc.url self1._user
      let acc1 := cleanLegacyPassword env acc kck
      if self1._ready then
        { self := self1, account := some acc1, effects := [Effect.fetched] }
      else
        let job : ReadPasswordJob :=
          { service := env.appName, insecureFallback := false,
            key := env.keychainKey acc1.url self1._user }
        { self := { self1 with _fetchJobInProgress := true },
          account := some acc1,
          effects := [Effect.startRead job] }

/-- Embeds `HttpCredentials::stillValid`. -/
def HttpCredentials.stillValid (reply : QNetworkReply) : Bool :=
  (reply.error != NetworkError.AuthenticationRequiredError)
    && (reply.error != NetworkError.OperationCanceledError)

/-- Embeds `HttpCredentials::persist`. -/
def HttpCredentials.persist (env : Env) (self : HttpCredentials)
    (account : Account) : Outcome :=
  let account1 := account.setCredentialSetting userC self._user
  let job : WritePasswordJob :=
    { service := env.appName, insecureFallback := false,
      key := env.keychainKey account1.url self._user,
      textData := self._password }
  { self := self, account := some account1, effects := [Effect.startWrite job] }

/-- The message of the password dialog,
`tr("Please enter %1 password for user '%2':").arg(appNameGUI, _user)`. -/
def passwordPrompt (env : Env) (user : String) : String :=
  "Please enter " ++ env.appNameGUI ++ " password for user \x27" ++ user ++ "\x27:"

/-- Embeds `HttpCredentials::queryPassword(bool *ok)`, `hasOk` telling whether `ok`
is a non-null pointer. `dialog` is `QInputDialog::getText`: from the title
and the message, the text entered and whether OK was pressed. Returns the
string, the value left in `*ok`, and the dialog shown. -/
def HttpCredentials.queryPassword (env : Env) (self : HttpCredentials)
    (hasOk : Bool) (dialog : String → String → String × Bool) :
    String × Bool × List Effect :=
  if hasOk then
    let title := "Enter Password"
    let message := passwordPrompt env self._user
    let answer := dialog title message
    (answer.1, answer.2, [Effect.getText title message])
  else
    ("", false, [])

/-- A finished read job as `slotReadJobDone` sees it: `textData()`, `error()`
and the account stored in its property "account". -/
structure FinishedReadJob where
  textData : String
  error : KeychainError
  account : Account
  deriving DecidableEq

/-- Embeds `HttpCredentials::slotReadJobDone`. -/
def HttpCredentials.slotReadJobDone (env : Env) (self : HttpCredentials)
    (job : FinishedReadJob) (dialog : String → String → String × Bool) : Outcome :=
  let self1 := { self with _password := job.textData }
  let account := job.account
  let error := job.error
  if !(isEmpty self1._password) && error == KeychainError.NoError then
    { self := { self1 with _ready := true, _fetchJobInProgress := false },
      account := some account,
      effects := [Effect.fetched] }
  else
    let q := self1.queryPassword env true dialog
    let pwd := q.1
    let ok := q.2.1
    let self2 := { self1 with _fetchJobInProgress := false }
    if ok then
      let self3 := { self2 with _password := pwd, _ready := true }
      let p := self3.persist env account
      { self := p.self, account := p.account,
        effects := q.2.2 ++ p.effects ++ [Effect.fetched] }
    else
      { self := self2, account := some account,
        effects := q.2.2 ++ [Effect.fetched] }

/-- Embeds `HttpCredentials::invalidateToken`. -/
def HttpCredentials.invalidateToken (env : Env) (self : HttpCredentials)
    (account : Account) : Outcome :=
  let self1 := { self with _password := "" }
  let job : DeletePasswordJob :=
    { service := env.appName,
      settings := account.settingsWithGroup env.appName,
      insecureFallback := true,
      key := env.keychainKey account.url self1._user }
  { self := { self1 with _ready := false },
    account := some account,
    effects := [Effect.startDelete job] }

/-! ## The access manager -/

/-- A `QByteArray`. -/
abbrev QByteArray := List UInt8

/-- Embeds `QString::toUtf8`. -/
def toUtf8 (s : String) : QByteArray :=
  s.data.flatMap String.utf8EncodeChar

/-- The bytes of an ASCII string literal of the source. -/
def bytes (s : String) : QByteArray := toUtf8 s

/-- The alphabet of `QByteArray::toBase64`: the character for a six-bit value. -/
def base64Alphabet (i : Nat) : UInt8 :=
  if i < 26 then (65 + i).toUInt8
  else if i < 52 then (97 + (i - 26)).toUInt8
  else if i < 62 then (48 + (i - 52)).toUInt8
  else if i = 62 then 43
  else 47

/-- The pad character of `QByteArray::toBase64`, `=`. -/
def base64Pad : UInt8 := 61

/-- Embeds `QByteArray::toBase64`: three bytes make a 24-bit chunk that is written as
four characters; a last group of one or two bytes is padded. -/
def toBase64 : QByteArray → QByteArray
  | [] => []
  | [a] =>
    let chunk := a.toNat * 65536
    [base64Alphabet (chunk / 262144 % 64), base64Alphabet (chunk / 4096 % 64),
      base64Pad, base64Pad]
  | [a, b] =>
    let chunk := a.toNat * 65536 + b.toNat * 256
    [base64Alphabet (chunk / 262144 % 64), base64Alphabet (chunk / 4096 % 64),
      base64Alphabet (chunk / 64 % 64), base64Pad]
  | a :: b :: c :: rest =>
    let chunk := a.toNat * 65536 + b.toNat * 256 + c.toNat
    base64Alphabet (chunk / 262144 % 64) :: base64Alphabet (chunk / 4096 % 64) ::
      base64Alphabet (chunk / 64 % 64) :: base64Alphabet (chunk % 64) :: toBase64 rest

/-- The lower-case form of an ASCII byte. -/
def toLowerByte (b : UInt8) : UInt8 :=
  if 65 ≤ b.toNat ∧ b.toNat ≤ 90 then (b.toNat + 32).toUInt8 else b

/-- Whether two header names are the same, compared without regard to case
(`qstricmp(a, b) == 0`). -/
def sameHeaderName (a b : QByteArray) : Bool :=
  a.map toLowerByte == b.map toLowerByte

/-- A `QNetworkRequest`: its URL, its raw headers in order, its attributes. -/
structure QNetworkRequest where
  url : String
  rawHeaders : List (QByteArray × QByteArray)
  attributes : List (Nat × String)
  deriving DecidableEq

/-- Embeds `QNetworkRequest::setRawHeader(headerName, headerValue)` for a non-null
value: every header of that name goes, the new pair is appended. -/
def QNetworkRequest.setRawHeader (req : QNetworkRequest)
    (headerName headerValue : QByteArray) : QNetworkRequest :=
  { req with
    rawHeaders :=
      req.rawHeaders.filter (fun h => !(sameHeaderName h.1 headerName))
        ++ [(headerName, headerValue)] }

/-- Embeds `QNetworkRequest::rawHeader(headerName)`: the value of the first header of
that name, `none` when there is none. -/
def QNetworkRequest.rawHeader (req : QNetworkRequest) (headerName : QByteArray) :
    Option QByteArray :=
  (req.rawHeaders.find? (fun h => sameHeaderName h.1 headerName)).map Prod.snd

/-- Embeds `QNetworkAccessManager::Operation`. -/
inductive Operation where
  | HeadOperation
  | GetOperation
  | PutOperation
  | PostOperation
  | DeleteOperation
  | CustomOperation
  deriving DecidableEq

/-- Embeds `HttpCredentialsAccessManager::createRequest`. `base` is the base class's
`MirallAccessManager::createRequest`, to which the stamped request goes;
`cred` is the object `_cred` points to when the request is created. -/
def HttpCredentialsAccessManager.createRequest {Reply : Type}
    (base : Operation → QNetworkRequest → Option QByteArray → Reply)
    (cred : HttpCredentials) (op : Operation) (request : QNetworkRequest)
    (outgoingData : Option QByteArray) : Reply :=
  let credHash := toBase64 (toUtf8 cred.user ++ bytes ":" ++ toUtf8 cred.password)
  let req := request.setRawHeader (bytes "Authorization") (bytes "Basic " ++ credHash)
  base op req outgoingData

/-! ## Runs of the object -/

/-- The credentials object together with the read jobs it has started and
that have not finished yet. -/
structure World where
  creds : HttpCredentials
  readJobs : List ReadPasswordJob
  deriving DecidableEq

/-- What can happen to the object: a call of `fetch`, of `persist` or of
`invalidateToken`, or the end of the read job at position `index` of the
unfinished ones, with the secret and error the keychain reports, the account
the job carries and the answer the password dialog would get. -/
inductive Call where
  | fetch (account : Option Account)
  | readJobDone (index : Nat) (textData : String) (error : KeychainError)
      (account : Account) (answer : String × Bool)
  | persist (account : Account)
  | invalidateToken (account : Account)
  deriving DecidableEq

/-- Whether the call is a call of `fetch`. -/
def Call.isFetch : Call → Bool
  | Call.fetch _ => true
  | _ => false

/-- Whether the call is the end of a read job. -/
def Call.isReadJobDone : Call → Bool
  | Call.readJobDone _ _ _ _ _ => true
  | _ => false

/-- One call on the world: the new world and the call's effects; `none` when
the call is the end of a read job that is not there. -/
def step (env : Env) (w : World) : Call → Option (World × List Effect)
  | Call.fetch account =>
    let r := w.creds.fetch env account
    some ({ creds := r.self, readJobs := w.readJobs ++ startedReads r.effects }, r.effects)
  | Call.readJobDone index textData error account answer =>
    if index < w.readJobs.length then
      let r := w.creds.slotReadJobDone env
        { textData := textData, error := error, account := account } (fun _ _ => answer)
      some ({ creds := r.self,
              readJobs := w.readJobs.eraseIdx index ++ startedReads r.effects },
            r.effects)
    else
      none
  | Call.persist account =>
    let r := w.creds.persist env account
    some ({ creds := r.self, readJobs := w.readJobs ++ startedReads r.effects }, r.effects)
  | Call.invalidateToken account =>
    let r := w.creds.invalidateToken env account
    some ({ creds := r.self, readJobs := w.readJobs ++ startedReads r.effects }, r.effects)

/-- A sequence of calls, from left to right: the final world and all the
effects in order. -/
def run (env : Env) (w : World) : List Call → Option (World × List Effect)
  | [] => some (w, [])
  | c :: rest =>
    match step env w c with
    | none => none
    | some (w1, effects1) =>
      match run env w1 rest with
      | none => none
      | some (w2, effects2) => some (w2, effects1 ++ effects2)

/-- A freshly constructed object, no read job started. -/
def World.fresh (creds : HttpCredentials) : World :=
  { creds := creds, readJobs := [] }

/-- The invariant of a run: at most one read job is unfinished, and while one
is, the object is marked as fetching and is not ready. -/
def World.inv (w : World) : Prop :=
  w.readJobs.length ≤ 1 ∧
    (w.readJobs ≠ [] → w.creds._fetchJobInProgress = true ∧ w.creds._ready = false)

/-- Whether the call, if it is the end of a read job whose dialog is accepted,
brings a non-empty password from the dialog. -/
def Call.acceptsNonEmpty : Call → Bool
  | Call.readJobDone _ _ _ _ answer => !answer.2 || !(isEmpty answer.1)
  | _ => true

/-- Modelled from the spec: the secure storage behind the keychain jobs
(`SecureStorageClient`, §6: `read(key) -> (secret, error)`,
`write(key, secret) -> error`), a service's secrets by key. -/
structure Keychain where
  entries : List ((String × String) × String)
  deriving DecidableEq

/-- A write job that succeeds: the secret is stored under the job's service
and key, in place of what was there. -/
def Keychain.write (kc : Keychain) (job : WritePasswordJob) : Keychain :=
  { entries :=
      ((job.service, job.key), job.textData) ::
        kc.entries.filter (fun e => !(e.1 == (job.service, job.key))) }

/-- All the write jobs of a list succeed, in order. -/
def Keychain.writeAll (kc : Keychain) : List WritePasswordJob → Keychain
  | [] => kc
  | job :: rest => (kc.write job).writeAll rest

/-- The `textData()` of a read job that ends without error: the secret held
under the job's service and key, empty when there is none. -/
def Keychain.read (kc : Keychain) (job : ReadPasswordJob) : String :=
  match kc.entries.lookup (job.service, job.key) with
  | some secret => secret
  | none => ""

/-- The scenario of a restart: `stored.persist(account)` runs and its write jobs
succeed on the keychain `kc`; then the object `fresh` is fetched with the
account as `persist` left it, and the read job it starts ends without error
with what the keychain holds for it. `none` when `fetch` starts no read job. -/
def roundTrip (env : Env) (stored fresh : HttpCredentials) (account : Account)
    (kc : Keychain) (dialog : String → String → String × Bool) : Option Outcome :=
  let p := stored.persist env account
  let kc1 := kc.writeAll (startedWrites p.effects)
  let f := fresh.fetch env p.account
  match f.account, startedReads f.effects with
  | some account1, [job] =>
    some (f.self.slotReadJobDone env
      { textData := kc1.read job, error := KeychainError.NoError, account := account1 }
      dialog)
  | _, _ => none

/-- A sample environment: the key is the user, a colon and the URL. -/
def sampleEnv : Env :=
  { appName := "ownCloud", appNameGUI := "ownCloud",
    keychainKey := fun url user => user ++ ":" ++ url }

/-- A sample account whose configured username is "alice". -/
def sampleAccount : Account :=
  { url := "https://cloud.example/", credentialSettings := [("user", "alice")],
    settings := some { keys := ["geometry"], synced := true } }

/-- The sample account with a legacy plaintext password in its settings. -/
def legacyAccount : Account :=
  { sampleAccount with
    settings := some
      { keys := ["alice:https://cloud.example//data", "alice:https://cloud.example//type",
                 "geometry"],
        synced := true } }

/-- The read job `fetch` starts for the sample account. -/
def sampleReadJob : ReadPasswordJob :=
  { service := "ownCloud", insecureFallback := false,
    key := "alice:https://cloud.example/" }

end Mirall

/-! ## Properties -/

namespace Mirall

/-! ### Single calls -/

theorem fetch_null (env : Env) (self : HttpCredentials) :
    self.fetch env none = { self := self, account := none, effects := [] } := rfl

theorem fetch_inProgress (env : Env) (self : HttpCredentials) (account : Option Account)
    (h : self._fetchJobInProgress = true) :
    self.fetch env account = { self := self, account := account, effects := [] } := by
  cases account <;> simp [HttpCredentials.fetch, h]

theorem fetch_ready (env : Env) (self : HttpCredentials) (acc : Account)
    (h : self._fetchJobInProgress = false) (hr : self._ready = true) :
    self.fetch env (some acc) =
      { self := self.fetchUser acc,
        account := some (cleanLegacyPassword env acc
          (env.keychainKey acc.url (acc.credentialSetting userC))),
        effects := [Effect.fetched] } := by
  simp [HttpCredentials.fetch, h, hr, HttpCredentials.fetchUser]

theorem cleanLegacyPassword_url (env : Env) (acc : Account) (kck : String) :
    (cleanLegacyPassword env acc kck).url = acc.url := by
  unfold cleanLegacyPassword
  cases acc.settingsWithGroup env.appName with
  | none => rfl
  | some settings => dsimp only; split <;> rfl

theorem cleanLegacyPassword_credentialSetting (env : Env) (acc : Account)
    (kck key : String) :
    (cleanLegacyPassword env acc kck).credentialSetting key = acc.credentialSetting key := by
  unfold cleanLegacyPassword
  cases acc.settingsWithGroup env.appName with
  | none => rfl
  | some settings => dsimp only; split <;> rfl

/-- After the cleaning block of `fetch` the settings do not hold the legacy
password key. -/
theorem cleanLegacyPassword_contains (env : Env) (acc : Account) (kck : String) :
    ((cleanLegacyPassword env acc kck).settingsWithGroup env.appName).map
        (fun settings => settings.contains (kck ++ "/data"))
      ≠ some true := by
  unfold cleanLegacyPassword
  cases hs : acc.settingsWithGroup env.appName with
  | none => simp [hs]
  | some settings =>
    dsimp only
    split
    · simp [Account.settingsWithGroup, QSettings.contains, QSettings.remove, QSettings.sync]
    · rename_i hc
      simpa [hs] using hc

/-- The cleaning block on the account with a legacy password: both legacy keys
go, the other setting stays, the settings are synced. -/
theorem cleanLegacyPassword_example :
    ((HttpCredentials.new false).fetch sampleEnv (some legacyAccount)).account
      = some sampleAccount := by
  decide

theorem fetch_notReady (env : Env) (self : HttpCredentials) (acc : Account)
    (h : self._fetchJobInProgress = false) (hr : self._ready = false) :
    self.fetch env (some acc) =
      { self := { self.fetchUser acc with _fetchJobInProgress := true },
        account := some (cleanLegacyPassword env acc
          (env.keychainKey acc.url (acc.credentialSetting userC))),
        effects := [Effect.startRead
          { service := env.appName, insecureFallback := false,
            key := env.keychainKey acc.url (acc.credentialSetting userC) }] } := by
  simp [HttpCredentials.fetch, h, hr, HttpCredentials.fetchUser, cleanLegacyPassword_url]

theorem isEmpty_eq_true (s : String) : isEmpty s = true ↔ s = "" := by
  simp [isEmpty]

theorem isEmpty_eq_false (s : String) : isEmpty s = false ↔ s ≠ "" := by
  simp [isEmpty]

theorem slotReadJobDone_stored (env : Env) (self : HttpCredentials)
    (job : FinishedReadJob) (dialog : String → String → String × Bool)
    (hs : job.textData ≠ "") (he : job.error = KeychainError.NoError) :
    self.slotReadJobDone env job dialog =
      { self := { self with _password := job.textData, _ready := true,
                            _fetchJobInProgress := false },
        account := some job.account,
        effects := [Effect.fetched] } := by
  simp [HttpCredentials.slotReadJobDone, isEmpty, hs, he]

theorem slotReadJobDone_accepted (env : Env) (self : HttpCredentials)
    (job : FinishedReadJob) (dialog : String → String → String × Bool)
    (hbad : job.textData = "" ∨ job.error ≠ KeychainError.NoError)
    (hok : (dialog "Enter Password" (passwordPrompt env self._user)).2 = true) :
    self.slotReadJobDone env job dialog =
      { self := { self with
                  _password := (dialog "Enter Password" (passwordPrompt env self._user)).1,
                  _ready := true, _fetchJobInProgress := false },
        account := some (job.account.setCredentialSetting userC self._user),
        effects :=
          [Effect.getText "Enter Password" (passwordPrompt env self._user),
           Effect.startWrite
             { service := env.appName, insecureFallback := false,
               key := env.keychainKey job.account.url self._user,
               textData := (dialog "Enter Password" (passwordPrompt env self._user)).1 },
           Effect.fetched] } := by
  have hc : (!(isEmpty job.textData) && job.error == KeychainError.NoError) = false := by
    rcases hbad with h | h <;> simp [isEmpty, h]
  simp [HttpCredentials.slotReadJobDone, hc, HttpCredentials.queryPassword, hok,
    HttpCredentials.persist, Account.setCredentialSetting]

theorem slotReadJobDone_cancelled (env : Env) (self : HttpCredentials)
    (job : FinishedReadJob) (dialog : String → String → String × Bool)
    (hbad : job.textData = "" ∨ job.error ≠ KeychainError.NoError)
    (hok : (dialog "Enter Password" (passwordPrompt env self._user)).2 = false) :
    self.slotReadJobDone env job dialog =
      { self := { self with _password := job.textData, _fetchJobInProgress := false },
        account := some job.account,
        effects :=
          [Effect.getText "Enter Password" (passwordPrompt env self._user),
           Effect.fetched] } := by
  have hc : (!(isEmpty job.textData) && job.error == KeychainError.NoError) = false := by
    rcases hbad with h | h <;> simp [isEmpty, h]
  simp [HttpCredentials.slotReadJobDone, hc, HttpCredentials.queryPassword, hok]

/-- The three ways a read job can end. -/
theorem slotReadJobDone_cases (job : FinishedReadJob) (answer : String × Bool) :
    (job.textData ≠ "" ∧ job.error = KeychainError.NoError) ∨
    ((job.textData = "" ∨ job.error ≠ KeychainError.NoError) ∧ answer.2 = true) ∨
    ((job.textData = "" ∨ job.error ≠ KeychainError.NoError) ∧ answer.2 = false) := by
  by_cases hs : job.textData = ""
  · cases h : answer.2 <;> simp [hs]
  · by_cases he : job.error = KeychainError.NoError
    · simp [hs, he]
    · cases h : answer.2 <;> simp [he]

/-! ### Runs -/

theorem startedReads_slotReadJobDone (env : Env) (self : HttpCredentials)
    (job : FinishedReadJob) (answer : String × Bool) :
    startedReads (self.slotReadJobDone env job (fun _ _ => answer)).effects = [] := by
  rcases slotReadJobDone_cases job answer with ⟨hs, he⟩ | ⟨hbad, hok⟩ | ⟨hbad, hok⟩
  · rw [slotReadJobDone_stored env self job _ hs he]; rfl
  · rw [slotReadJobDone_accepted env self job _ hbad hok]; rfl
  · rw [slotReadJobDone_cancelled env self job _ hbad hok]; rfl

theorem inProgress_slotReadJobDone (env : Env) (self : HttpCredentials)
    (job : FinishedReadJob) (answer : String × Bool) :
    (self.slotReadJobDone env job (fun _ _ => answer)).self._fetchJobInProgress = false := by
  rcases slotReadJobDone_cases job answer with ⟨hs, he⟩ | ⟨hbad, hok⟩ | ⟨hbad, hok⟩
  · rw [slotReadJobDone_stored env self job _ hs he]
  · rw [slotReadJobDone_accepted env self job _ hbad hok]
  · rw [slotReadJobDone_cancelled env self job _ hbad hok]

theorem eraseIdx_of_length_le_one {α : Type} (l : List α) (i : Nat)
    (hl : l.length ≤ 1) (hi : i < l.length) : l.eraseIdx i = [] := by
  match l, i with
  | [a], 0 => rfl
  | [_], n + 1 => simp at hi
  | [], _ => simp at hi
  | _ :: _ :: _, _ => simp at hl

theorem inv_fresh (creds : HttpCredentials) : (World.fresh creds).inv := by
  simp [World.inv, World.fresh]

theorem step_inv (env : Env) (w w1 : World) (c : Call) (effects : List Effect)
    (hinv : w.inv) (hstep : step env w c = some (w1, effects)) : w1.inv := by
  obtain ⟨hlen, hjobs⟩ := hinv
  cases c with
  | fetch account =>
    simp only [step, Option.some.injEq, Prod.mk.injEq] at hstep
    obtain ⟨rfl, -⟩ := hstep
    cases hp : w.creds._fetchJobInProgress with
    | true =>
      rw [fetch_inProgress env w.creds account hp]
      simpa [World.inv, startedReads] using ⟨hlen, hjobs⟩
    | false =>
      have hnil : w.readJobs = [] := by
        by_contra hne
        have := (hjobs hne).1
        simp [hp] at this
      cases account with
      | none => simp [World.inv, fetch_null, startedReads, hnil]
      | some acc =>
        cases hr : w.creds._ready with
        | true =>
          rw [fetch_ready env w.creds acc hp hr]
          simp [World.inv, startedReads, hnil]
        | false =>
          rw [fetch_notReady env w.creds acc hp hr]
          simp [World.inv, startedReads, hnil, HttpCredentials.fetchUser, hr]
  | readJobDone index textData error account answer =>
    simp only [step] at hstep
    split at hstep
    · rename_i hi
      simp only [Option.some.injEq, Prod.mk.injEq] at hstep
      obtain ⟨rfl, -⟩ := hstep
      simp [World.inv, startedReads_slotReadJobDone,
        eraseIdx_of_length_le_one w.readJobs index hlen hi]
    · simp at hstep
  | persist account =>
    simp only [step, Option.some.injEq, Prod.mk.injEq] at hstep
    obtain ⟨rfl, -⟩ := hstep
    simpa [World.inv, HttpCredentials.persist, startedReads] using ⟨hlen, hjobs⟩
  | invalidateToken account =>
    simp only [step, Option.some.injEq, Prod.mk.injEq] at hstep
    obtain ⟨rfl, -⟩ := hstep
    simp only [World.inv, HttpCredentials.invalidateToken, startedReads, List.append_nil]
    exact ⟨hlen, fun hne => ⟨(hjobs hne).1, trivial⟩⟩

theorem run_cons (env : Env) (w w2 : World) (c : Call) (rest : List Call)
    (effects : List Effect) (hrun : run env w (c :: rest) = some (w2, effects)) :
    ∃ w1 effects1 effects2, step env w c = some (w1, effects1) ∧
      run env w1 rest = some (w2, effects2) ∧ effects = effects1 ++ effects2 := by
  simp only [run] at hrun
  cases hs : step env w c with
  | none => simp [hs] at hrun
  | some r1 =>
    obtain ⟨w1, effects1⟩ := r1
    simp only [hs] at hrun
    cases hr : run env w1 rest with
    | none => simp [hr] at hrun
    | some r2 =>
      obtain ⟨w2a, effects2⟩ := r2
      simp only [hr, Option.some.injEq, Prod.mk.injEq] at hrun
      obtain ⟨rfl, rfl⟩ := hrun
      exact ⟨w1, effects1, effects2, rfl, hr, rfl⟩

theorem run_inv (env : Env) (calls : List Call) (w w2 : World) (effects : List Effect)
    (hinv : w.inv) (hrun : run env w calls = some (w2, effects)) : w2.inv := by
  induction calls generalizing w effects with
  | nil =>
    simp only [run, Option.some.injEq, Prod.mk.injEq] at hrun
    obtain ⟨rfl, -⟩ := hrun
    exact hinv
  | cons c rest ih =>
    obtain ⟨w1, effects1, effects2, hs, hr, -⟩ := run_cons env w w2 c rest effects hrun
    exact ih w1 effects2 (step_inv env w w1 c effects1 hinv hs) hr

/-- Readiness with a non-empty password is kept by a call whose dialog, if
accepted, brings a non-empty password. -/
theorem step_ready_password (env : Env) (w w1 : World) (c : Call) (effects : List Effect)
    (hinv : w.inv) (hc : c.acceptsNonEmpty = true)
    (hpw : w.creds._ready = true → w.creds._password ≠ "")
    (hstep : step env w c = some (w1, effects)) :
    w1.creds._ready = true → w1.creds._password ≠ "" := by
  cases c with
  | fetch account =>
    simp only [step, Option.some.injEq, Prod.mk.injEq] at hstep
    obtain ⟨rfl, -⟩ := hstep
    cases hp : w.creds._fetchJobInProgress with
    | true => rw [fetch_inProgress env w.creds account hp]; exact hpw
    | false =>
      cases account with
      | none => exact hpw
      | some acc =>
        cases hr : w.creds._ready with
        | true =>
          rw [fetch_ready env w.creds acc hp hr]
          intro _
          exact hpw hr
        | false =>
          rw [fetch_notReady env w.creds acc hp hr]
          simp [HttpCredentials.fetchUser, hr]
  | readJobDone index textData error account answer =>
    simp only [step] at hstep
    split at hstep
    · rename_i hi
      simp only [Option.some.injEq, Prod.mk.injEq] at hstep
      obtain ⟨rfl, -⟩ := hstep
      have hne : w.readJobs ≠ [] := by
        intro h
        simp [h] at hi
      have hnr := (hinv.2 hne).2
      rcases slotReadJobDone_cases
          { textData := textData, error := error, account := account } answer
        with ⟨hs, he⟩ | ⟨hbad, hok⟩ | ⟨hbad, hok⟩
      · rw [slotReadJobDone_stored env w.creds _ _ hs he]
        intro _
        exact hs
      · rw [slotReadJobDone_accepted env w.creds _ _ hbad hok]
        intro _
        simp only [Call.acceptsNonEmpty, hok, Bool.not_true, Bool.false_or,
          Bool.not_eq_true', isEmpty_eq_false] at hc
        exact hc
      · rw [slotReadJobDone_cancelled env w.creds _ _ hbad hok]
        simp [hnr]
    · simp at hstep
  | persist account =>
    simp only [step, Option.some.injEq, Prod.mk.injEq] at hstep
    obtain ⟨rfl, -⟩ := hstep
    exact hpw
  | invalidateToken account =>
    simp only [step, Option.some.injEq, Prod.mk.injEq] at hstep
    obtain ⟨rfl, -⟩ := hstep
    simp [HttpCredentials.invalidateToken]

theorem run_ready_password (env : Env) (calls : List Call) (w w2 : World)
    (effects : List Effect) (hinv : w.inv)
    (hcalls : ∀ c ∈ calls, c.acceptsNonEmpty = true)
    (hpw : w.creds._ready = true → w.creds._password ≠ "")
    (hrun : run env w calls = some (w2, effects)) :
    w2.creds._ready = true → w2.creds._password ≠ "" := by
  induction calls generalizing w effects with
  | nil =>
    simp only [run, Option.some.injEq, Prod.mk.injEq] at hrun
    obtain ⟨rfl, -⟩ := hrun
    exact hpw
  | cons c rest ih =>
    obtain ⟨w1, effects1, effects2, hs, hr, -⟩ := run_cons env w w2 c rest effects hrun
    exact ih w1 effects2 (step_inv env w w1 c effects1 hinv hs)
      (fun c1 h1 => hcalls c1 (List.mem_cons_of_mem _ h1))
      (step_ready_password env w w1 c effects1 hinv
        (hcalls c (List.mem_cons_self _ _)) hpw hs) hr

/-! ### The claims -/

/-- C1, as stated, fails twice. The constructor taking a user and a password
sets `_ready` whatever the password: `HttpCredentials("alice", "")` is ready
with an empty password. And a password dialog accepted with an empty text
makes the object ready: from the empty constructor, `fetch`, then the end of
the read with no secret and the dialog answered `("", true)`. -/
theorem C1_counterexample :
    ((HttpCredentials.newWith "alice" "").ready = true ∧
      (HttpCredentials.newWith "alice" "").password = "") ∧
    (run sampleEnv (World.fresh (HttpCredentials.new false))
        [Call.fetch (some sampleAccount),
         Call.readJobDone 0 "" KeychainError.EntryNotFound sampleAccount ("", true)]).map
      (fun r => (r.1.creds.ready, r.1.creds.password)) = some (true, "") := by
  decide

/-- C1, as amended: from the empty constructor, or from the constructor
taking a user and a non-empty password, through any sequence of `fetch`, ends
of read jobs (any secret, any error, any dialog answer that, when accepted,
is non-empty), `persist` and `invalidateToken`, `ready()` implies that
`password()` is non-empty. -/
theorem C1_ready_implies_password (env : Env) (init : HttpCredentials)
    (calls : List Call) (w : World) (effects : List Effect)
    (hinit : (∃ b, init = HttpCredentials.new b) ∨
      (∃ user password, password ≠ "" ∧ init = HttpCredentials.newWith user password))
    (hcalls : ∀ c ∈ calls, c.acceptsNonEmpty = true)
    (hrun : run env (World.fresh init) calls = some (w, effects)) :
    w.creds.ready = true → w.creds.password ≠ "" := by
  refine run_ready_password env calls (World.fresh init) w effects (inv_fresh init)
    hcalls ?_ hrun
  rcases hinit with ⟨b, rfl⟩ | ⟨user, password, hp, rfl⟩
  · simp [World.fresh, HttpCredentials.new]
  · intro _
    exact hp

/-- C1 at work: the empty constructor, `fetch`, the read ending without a
secret, the dialog accepted with "s3cr3t", `persist`, `invalidateToken`, and
a second fetch whose read brings "s3cr3t" back. -/
theorem C1_ready_implies_password_witness :
    (⟨⟨"alice", "s3cr3t", true, false⟩, []⟩ : World).creds.ready = true ∧
    (⟨⟨"alice", "s3cr3t", true, false⟩, []⟩ : World).creds.password ≠ "" :=
  ⟨rfl,
   C1_ready_implies_password sampleEnv (HttpCredentials.new false)
    [Call.fetch (some sampleAccount),
     Call.readJobDone 0 "" KeychainError.EntryNotFound sampleAccount ("s3cr3t", true),
     Call.persist sampleAccount,
     Call.invalidateToken sampleAccount,
     Call.fetch (some sampleAccount),
     Call.readJobDone 0 "s3cr3t" KeychainError.NoError sampleAccount ("", false)]
    ⟨⟨"alice", "s3cr3t", true, false⟩, []⟩
    [Effect.startRead sampleReadJob,
     Effect.getText "Enter Password" "Please enter ownCloud password for user \x27alice\x27:",
     Effect.startWrite ⟨"ownCloud", false, "alice:https://cloud.example/", "s3cr3t"⟩,
     Effect.fetched,
     Effect.startWrite ⟨"ownCloud", false, "alice:https://cloud.example/", "s3cr3t"⟩,
     Effect.startDelete ⟨"ownCloud", some ⟨["geometry"], true⟩, true,
       "alice:https://cloud.example/"⟩,
     Effect.startRead sampleReadJob,
     Effect.fetched]
    (Or.inl ⟨false, rfl⟩) (by decide) (by decide) rfl⟩

/-- C2: in every world reached from a freshly constructed object (whatever
its fields, so from either constructor) by any sequence of calls, at most one
read job is started and not finished; and a `fetch` made while
`_fetchJobInProgress` is set has no effect at all: no job, no signal, the
object and the account as they were. -/
theorem C2_one_read_in_flight (env : Env) (init : HttpCredentials)
    (calls : List Call) (w : World) (effects : List Effect)
    (self : HttpCredentials) (account : Option Account)
    (hrun : run env (World.fresh init) calls = some (w, effects))
    (hprog : self._fetchJobInProgress = true) :
    w.readJobs.length ≤ 1 ∧
      self.fetch env account = { self := self, account := account, effects := [] } :=
  ⟨(run_inv env calls (World.fresh init) w effects (inv_fresh init) hrun).1,
   fetch_inProgress env self account hprog⟩

/-- C2 at work: three `fetch` calls and an `invalidateToken` before the read
ends leave one read job in flight. -/
theorem C2_one_read_in_flight_witness :
    (⟨⟨"alice", "", false, true⟩, [sampleReadJob]⟩ : World).readJobs.length ≤ 1 ∧
    (⟨"alice", "", false, true⟩ : HttpCredentials).fetch sampleEnv (some sampleAccount) =
      { self := ⟨"alice", "", false, true⟩, account := some sampleAccount, effects := [] } :=
  C2_one_read_in_flight sampleEnv (HttpCredentials.new false)
    [Call.fetch (some sampleAccount), Call.fetch (some sampleAccount),
     Call.invalidateToken sampleAccount, Call.fetch (some sampleAccount)]
    ⟨⟨"alice", "", false, true⟩, [sampleReadJob]⟩
    [Effect.startRead sampleReadJob,
     Effect.startDelete ⟨"ownCloud", some ⟨["geometry"], true⟩, true,
       "alice:https://cloud.example/"⟩]
    ⟨"alice", "", false, true⟩ (some sampleAccount) rfl rfl

theorem countFetched_slotReadJobDone (env : Env) (self : HttpCredentials)
    (job : FinishedReadJob) (dialog : String → String → String × Bool) :
    countFetched (self.slotReadJobDone env job dialog).effects = 1 ∧
      startedReads (self.slotReadJobDone env job dialog).effects = [] ∧
      (self.slotReadJobDone env job dialog).self._fetchJobInProgress = false := by
  rcases slotReadJobDone_cases job (dialog "Enter Password" (passwordPrompt env self._user))
    with ⟨hs, he⟩ | ⟨hbad, hok⟩ | ⟨hbad, hok⟩
  · rw [slotReadJobDone_stored env self job dialog hs he]
    exact ⟨by simp [countFetched], rfl, rfl⟩
  · rw [slotReadJobDone_accepted env self job dialog hbad hok]
    exact ⟨by simp [countFetched], rfl, rfl⟩
  · rw [slotReadJobDone_cancelled env self job dialog hbad hok]
    exact ⟨by simp [countFetched], rfl, rfl⟩

/-- C3, as stated, fails for a null account: `fetch` returns at its first test,
so a call that `_fetchJobInProgress` does not suppress emits no `fetched()`
and starts no read job, on a ready object as on one that is not ready. -/
theorem C3_counterexample :
    ((HttpCredentials.newWith "alice" "s3cr3t")._fetchJobInProgress = false ∧
      (HttpCredentials.newWith "alice" "s3cr3t")._ready = true ∧
      countFetched ((HttpCredentials.newWith "alice" "s3cr3t").fetch sampleEnv none).effects
        = 0) ∧
    ((HttpCredentials.new false)._fetchJobInProgress = false ∧
      (HttpCredentials.new false)._ready = false ∧
      ((HttpCredentials.new false).fetch sampleEnv none).effects = []) := by
  decide

/-- C3, as amended: a `fetch(account)` with a non-null account that
`_fetchJobInProgress` does not suppress leads to exactly one `fetched()`. On a
ready object the call emits it and starts no job. On an object that is not
ready the call emits nothing, starts exactly one read job, for the derived key,
and sets `_fetchJobInProgress`; and the end of a read job, in whatever state
`later` the object then is, with whatever secret, error and dialog answer,
emits exactly one `fetched()`, starts no read job and leaves
`_fetchJobInProgress` false. -/
theorem C3_fetch_one_event (env : Env) (self later : HttpCredentials) (acc : Account)
    (job : FinishedReadJob) (dialog : String → String → String × Bool)
    (hprog : self._fetchJobInProgress = false) :
    (self._ready = true →
      (self.fetch env (some acc)).effects = [Effect.fetched]) ∧
    (self._ready = false →
      (self.fetch env (some acc)).effects =
          [Effect.startRead
            { service := env.appName, insecureFallback := false,
              key := env.keychainKey acc.url (acc.credentialSetting userC) }] ∧
        (self.fetch env (some acc)).self._fetchJobInProgress = true) ∧
    (countFetched (later.slotReadJobDone env job dialog).effects = 1 ∧
      startedReads (later.slotReadJobDone env job dialog).effects = [] ∧
      (later.slotReadJobDone env job dialog).self._fetchJobInProgress = false) := by
  refine ⟨fun hr => ?_, fun hr => ?_, countFetched_slotReadJobDone env later job dialog⟩
  · rw [fetch_ready env self acc hprog hr]
  · rw [fetch_notReady env self acc hprog hr]
    exact ⟨rfl, rfl⟩

/-- C3 at work on the empty object: the call starts the read job of the sample
account, and the read that ends with an error and a cancelled dialog emits
one `fetched()`. -/
theorem C3_fetch_one_event_witness :
    ((HttpCredentials.new false).fetch sampleEnv (some sampleAccount)).effects =
        [Effect.startRead sampleReadJob] ∧
    countFetched ((HttpCredentials.mk "alice" "" false true).slotReadJobDone sampleEnv
        ⟨"", KeychainError.AccessDenied, sampleAccount⟩ (fun _ _ => ("", false))).effects
      = 1 :=
  ⟨((C3_fetch_one_event sampleEnv (HttpCredentials.new false)
      (HttpCredentials.mk "alice" "" false true) sampleAccount
      ⟨"", KeychainError.AccessDenied, sampleAccount⟩ (fun _ _ => ("", false))
      rfl).2.1 rfl).1,
   (C3_fetch_one_event sampleEnv (HttpCredentials.new false)
      (HttpCredentials.mk "alice" "" false true) sampleAccount
      ⟨"", KeychainError.AccessDenied, sampleAccount⟩ (fun _ _ => ("", false))
      rfl).2.2.1⟩

/-- With no read job in flight, the fetch flag down and the object not ready,
a call other than `fetch` leaves all three so; the end of a read job cannot
happen. -/
theorem step_idle (env : Env) (w w1 : World) (c : Call) (effects : List Effect)
    (hjobs : w.readJobs = []) (hprog : w.creds._fetchJobInProgress = false)
    (hready : w.creds._ready = false) (hc : c.isFetch = false)
    (hstep : step env w c = some (w1, effects)) :
    w1.readJobs = [] ∧ w1.creds._fetchJobInProgress = false ∧ w1.creds._ready = false := by
  cases c with
  | fetch account => simp [Call.isFetch] at hc
  | readJobDone index textData error account answer =>
    simp [step, hjobs] at hstep
  | persist account =>
    simp only [step, Option.some.injEq, Prod.mk.injEq] at hstep
    obtain ⟨rfl, -⟩ := hstep
    simpa [HttpCredentials.persist, startedReads] using ⟨hjobs, hprog, hready⟩
  | invalidateToken account =>
    simp only [step, Option.some.injEq, Prod.mk.injEq] at hstep
    obtain ⟨rfl, -⟩ := hstep
    simpa [HttpCredentials.invalidateToken, startedReads] using ⟨hjobs, hprog⟩

theorem run_idle (env : Env) (calls : List Call) (w w2 : World) (effects : List Effect)
    (hjobs : w.readJobs = []) (hprog : w.creds._fetchJobInProgress = false)
    (hready : w.creds._ready = false) (hcalls : ∀ c ∈ calls, c.isFetch = false)
    (hrun : run env w calls = some (w2, effects)) :
    w2.readJobs = [] ∧ w2.creds._fetchJobInProgress = false ∧ w2.creds._ready = false := by
  induction calls generalizing w effects with
  | nil =>
    simp only [run, Option.some.injEq, Prod.mk.injEq] at hrun
    obtain ⟨rfl, -⟩ := hrun
    exact ⟨hjobs, hprog, hready⟩
  | cons c rest ih =>
    obtain ⟨w1, effects1, effects2, hs, hr, -⟩ := run_cons env w w2 c rest effects hrun
    obtain ⟨h1, h2, h3⟩ := step_idle env w w1 c effects1 hjobs hprog hready
      (hcalls c (List.mem_cons_self _ _)) hs
    exact ih w1 effects2 h1 h2 h3 (fun c1 hc1 => hcalls c1 (List.mem_cons_of_mem _ hc1)) hr

/-- The fetch flag, once up, stays up through every call but the end of a
read job. -/
theorem step_flag (env : Env) (w w1 : World) (c : Call) (effects : List Effect)
    (hprog : w.creds._fetchJobInProgress = true) (hc : c.isReadJobDone = false)
    (hstep : step env w c = some (w1, effects)) :
    w1.creds._fetchJobInProgress = true := by
  cases c with
  | fetch account =>
    simp only [step, Option.some.injEq, Prod.mk.injEq] at hstep
    obtain ⟨rfl, -⟩ := hstep
    rw [fetch_inProgress env w.creds account hprog]
    exact hprog
  | readJobDone index textData error account answer => simp [Call.isReadJobDone] at hc
  | persist account =>
    simp only [step, Option.some.injEq, Prod.mk.injEq] at hstep
    obtain ⟨rfl, -⟩ := hstep
    exact hprog
  | invalidateToken account =>
    simp only [step, Option.some.injEq, Prod.mk.injEq] at hstep
    obtain ⟨rfl, -⟩ := hstep
    exact hprog

theorem run_flag (env : Env) (calls : List Call) (w w2 : World) (effects : List Effect)
    (hprog : w.creds._fetchJobInProgress = true)
    (hcalls : ∀ c ∈ calls, c.isReadJobDone = false)
    (hrun : run env w calls = some (w2, effects)) :
    w2.creds._fetchJobInProgress = true := by
  induction calls generalizing w effects with
  | nil =>
    simp only [run, Option.some.injEq, Prod.mk.injEq] at hrun
    obtain ⟨rfl, -⟩ := hrun
    exact hprog
  | cons c rest ih =>
    obtain ⟨w1, effects1, effects2, hs, hr, -⟩ := run_cons env w w2 c rest effects hrun
    exact ih w1 effects2
      (step_flag env w w1 c effects1 hprog (hcalls c (List.mem_cons_self _ _)) hs)
      (fun c1 hc1 => hcalls c1 (List.mem_cons_of_mem _ hc1)) hr

/-- C4, as stated, fails when `invalidateToken` is called while a read is in
flight; it leaves `_fetchJobInProgress` alone. First run: `fetch` (starts the
read), `invalidateToken`; the next `fetch` returns at once and starts no read
job. Second run: `fetch`, `invalidateToken`, then the read in flight ends with
the secret "oldpass" and no error, which makes the object ready; the next
`fetch` short-circuits: it emits `fetched()` and starts no read job. -/
theorem C4_counterexample :
    ((run sampleEnv (World.fresh (HttpCredentials.new false))
        [Call.fetch (some sampleAccount), Call.invalidateToken sampleAccount]).map
      (fun r => r.1.creds) = some ⟨"alice", "", false, true⟩ ∧
    ((HttpCredentials.mk "alice" "" false true).fetch sampleEnv (some sampleAccount)).effects
      = []) ∧
    ((run sampleEnv (World.fresh (HttpCredentials.new false))
        [Call.fetch (some sampleAccount), Call.invalidateToken sampleAccount,
         Call.readJobDone 0 "oldpass" KeychainError.NoError sampleAccount ("", false)]).map
      (fun r => r.1.creds) = some ⟨"alice", "oldpass", true, false⟩ ∧
    ((HttpCredentials.mk "alice" "oldpass" true false).fetch sampleEnv
        (some sampleAccount)).effects = [Effect.fetched]) := by
  decide

/-- C4, as amended. `invalidateToken(account)` is called in a state `w0`
reached from a freshly constructed object by any calls `pre`; calls other
than `fetch` follow (`mid`), and then comes the next `fetch`, on the account
as it then is (`next`). When no fetch was in progress at the invalidation,
that `fetch` does not short-circuit: its only effect is to start one read
job, for the key derived from the account URL and the configured username,
and no `fetched()` is emitted. When a fetch was in progress and the read has
not ended in between, that `fetch` does nothing: no signal, no read job. So the
next `fetch` short-circuits only when a fetch was in progress at the
invalidation and a read has ended in between. -/
theorem C4_fetch_after_invalidate (env : Env) (init : HttpCredentials)
    (pre mid : List Call) (w0 w : World) (effects0 effects : List Effect)
    (account next : Account)
    (hpre : run env (World.fresh init) pre = some (w0, effects0))
    (hmid : ∀ c ∈ mid, c.isFetch = false)
    (hrun : run env w0 (Call.invalidateToken account :: mid) = some (w, effects)) :
    (w0.creds._fetchJobInProgress = false →
      (w.creds.fetch env (some next)).effects =
          [Effect.startRead
            { service := env.appName, insecureFallback := false,
              key := env.keychainKey next.url (next.credentialSetting userC) }] ∧
        countFetched (w.creds.fetch env (some next)).effects = 0) ∧
    (w0.creds._fetchJobInProgress = true → (∀ c ∈ mid, c.isReadJobDone = false) →
      w.creds.fetch env (some next) =
        { self := w.creds, account := some next, effects := [] }) ∧
    (countFetched (w.creds.fetch env (some next)).effects ≠ 0 →
      w0.creds._fetchJobInProgress = true ∧ ∃ c ∈ mid, c.isReadJobDone = true) := by
  have hinv0 := run_inv env pre (World.fresh init) w0 effects0 (inv_fresh init) hpre
  obtain ⟨w1, effects1, effects2, hs, hr, -⟩ :=
    run_cons env w0 w (Call.invalidateToken account) mid effects hrun
  simp only [step, Option.some.injEq, Prod.mk.injEq] at hs
  obtain ⟨rfl, -⟩ := hs
  have hidle : w0.creds._fetchJobInProgress = false →
      (w.creds.fetch env (some next)).effects =
          [Effect.startRead
            { service := env.appName, insecureFallback := false,
              key := env.keychainKey next.url (next.credentialSetting userC) }] ∧
        countFetched (w.creds.fetch env (some next)).effects = 0 := by
    intro hp
    have hnil : w0.readJobs = [] := by
      by_contra hne
      have := (hinv0.2 hne).1
      simp [hp] at this
    obtain ⟨-, h2, h3⟩ := run_idle env mid _ w effects2
      (by simp [HttpCredentials.invalidateToken, startedReads, hnil])
      (by simpa [HttpCredentials.invalidateToken] using hp)
      (by simp [HttpCredentials.invalidateToken]) hmid hr
    rw [fetch_notReady env w.creds next h2 h3]
    exact ⟨rfl, by simp [countFetched]⟩
  have hbusy : w0.creds._fetchJobInProgress = true → (∀ c ∈ mid, c.isReadJobDone = false) →
      w.creds.fetch env (some next) =
        { self := w.creds, account := some next, effects := [] } := by
    intro hp hnone
    have h2 := run_flag env mid _ w effects2
      (by simpa [HttpCredentials.invalidateToken] using hp) hnone hr
    exact fetch_inProgress env w.creds (some next) h2
  refine ⟨hidle, hbusy, fun hev => ?_⟩
  cases hp : w0.creds._fetchJobInProgress with
  | false => exact absurd (hidle hp).2 hev
  | true =>
    refine ⟨rfl, ?_⟩
    by_contra hno
    have hnone : ∀ c ∈ mid, c.isReadJobDone = false := by
      intro c hc
      cases hd : c.isReadJobDone with
      | false => rfl
      | true => exact absurd ⟨c, hc, hd⟩ hno
    rw [hbusy hp hnone] at hev
    simp [countFetched] at hev

/-- C4 at work: a ready object is fetched, invalidated and persisted; the next
`fetch` starts the read job of the sample account. -/
theorem C4_fetch_after_invalidate_witness :
    ((HttpCredentials.mk "alice" "" false false).fetch sampleEnv (some sampleAccount)).effects
        = [Effect.startRead sampleReadJob] ∧
    countFetched ((HttpCredentials.mk "alice" "" false false).fetch sampleEnv
        (some sampleAccount)).effects = 0 :=
  (C4_fetch_after_invalidate sampleEnv (HttpCredentials.newWith "bob" "s3cr3t")
    [Call.fetch (some sampleAccount)] [Call.persist sampleAccount]
    ⟨⟨"alice", "s3cr3t", true, false⟩, []⟩ ⟨⟨"alice", "", false, false⟩, []⟩
    [Effect.fetched]
    [Effect.startDelete ⟨"ownCloud", some ⟨["geometry"], true⟩, true,
       "alice:https://cloud.example/"⟩,
     Effect.startWrite ⟨"ownCloud", false, "alice:https://cloud.example/", ""⟩]
    sampleAccount sampleAccount rfl (by decide) rfl).1 rfl

/-- C7: `invalidateToken(account)`, from any state, leaves the password empty
and the object not ready, keeps the user, and its only effect is to start one
delete job whose key is derived from the account URL and the current user. -/
theorem C7_invalidateToken (env : Env) (self : HttpCredentials) (account : Account) :
    (self.invalidateToken env account).self.password = "" ∧
    (self.invalidateToken env account).self.ready = false ∧
    (self.invalidateToken env account).self.user = self.user ∧
    (self.invalidateToken env account).effects =
      [Effect.startDelete
        { service := env.appName, settings := account.settingsWithGroup env.appName,
          insecureFallback := true, key := env.keychainKey account.url self.user }] ∧
    (startedDeletes (self.invalidateToken env account).effects).map (fun job => job.key) =
      [env.keychainKey account.url self.user] :=
  ⟨rfl, rfl, rfl, rfl, rfl⟩

/-- C8: `c.changed(other)` is true exactly when `other` is not an
`HttpCredentials` or its user differs from `c`'s; and for two
`HttpCredentials` with the same user it is false, whatever the passwords, the
readiness and the fetch flags. -/
theorem C8_changed (self : HttpCredentials) (credentials : Option AbstractCredentials)
    (user pw1 pw2 : String) (r1 r2 f1 f2 : Bool) :
    (self.changed credentials = true ↔
      ((∀ other, credentials ≠ some (AbstractCredentials.http other)) ∨
        ∃ other, credentials = some (AbstractCredentials.http other) ∧
          other.user ≠ self.user)) ∧
    (HttpCredentials.mk user pw1 r1 f1).changed
      (some (AbstractCredentials.http (HttpCredentials.mk user pw2 r2 f2))) = false := by
  refine ⟨?_, by simp [HttpCredentials.changed, dynamicCastHttp, HttpCredentials.user]⟩
  cases credentials with
  | none => simp [HttpCredentials.changed, dynamicCastHttp]
  | some c =>
    cases c with
    | http o => simp [HttpCredentials.changed, dynamicCastHttp]
    | other t => simp [HttpCredentials.changed, dynamicCastHttp]

/-- C10: `stillValid(reply)` is false exactly when the reply's error is
`AuthenticationRequiredError` or `OperationCanceledError`; in particular it is
true for `TimeoutError` and for `NoError`. -/
theorem C10_stillValid (reply : QNetworkReply) :
    (HttpCredentials.stillValid reply = false ↔
      (reply.error = NetworkError.AuthenticationRequiredError ∨
        reply.error = NetworkError.OperationCanceledError)) ∧
    HttpCredentials.stillValid ⟨NetworkError.TimeoutError⟩ = true ∧
    HttpCredentials.stillValid ⟨NetworkError.NoError⟩ = true := by
  refine ⟨?_, rfl, rfl⟩
  obtain ⟨e⟩ := reply
  cases e <;> simp [HttpCredentials.stillValid]

theorem credentialSetting_setCredentialSetting (a : Account) (key value : String) :
    (a.setCredentialSetting key value).credentialSetting key = value := by
  simp [Account.setCredentialSetting, Account.credentialSetting, List.lookup]

theorem read_write (kc : Keychain) (job : WritePasswordJob) (fallback : Bool) :
    (kc.write job).read
      { service := job.service, insecureFallback := fallback, key := job.key }
      = job.textData := by
  simp [Keychain.write, Keychain.read, List.lookup]

/-- C5: round trip. `persist(account)` on an object holding a user and a
non-empty password, the write succeeding, followed by `fetch(account)` on an
object that is not ready and not fetching, whose read ends without error with
what the keychain holds under the key of the read job, ends ready, with the
persisted user and password, and shows no dialog; the read job and the write
job have the same service and key. -/
theorem C5_round_trip (env : Env) (stored fresh : HttpCredentials) (account : Account)
    (kc : Keychain) (dialog : String → String → String × Bool)
    (hpw : stored.password ≠ "")
    (hready : fresh._ready = false) (hprog : fresh._fetchJobInProgress = false) :
    (roundTrip env stored fresh account kc dialog).map
        (fun done => (done.self.ready, done.self.user, done.self.password,
          shownDialogs done.effects))
      = some (true, stored.user, stored.password, []) ∧
    (startedReads (fresh.fetch env (stored.persist env account).account).effects).map
        (fun job => (job.service, job.key))
      = (startedWrites (stored.persist env account).effects).map
        (fun job => (job.service, job.key)) := by
  have hp : stored.persist env account =
      { self := stored, account := some (account.setCredentialSetting userC stored._user),
        effects := [Effect.startWrite
          { service := env.appName, insecureFallback := false,
            key := env.keychainKey account.url stored._user,
            textData := stored._password }] } := rfl
  have hf := fetch_notReady env fresh (account.setCredentialSetting userC stored._user)
    hprog hready
  rw [credentialSetting_setCredentialSetting] at hf
  have hurl : (account.setCredentialSetting userC stored._user).url = account.url := rfl
  rw [hurl] at hf
  constructor
  · simp only [roundTrip, hp, hf, startedWrites, startedReads, Keychain.writeAll]
    rw [hurl]
    have hread := read_write kc
      { service := env.appName, insecureFallback := false,
        key := env.keychainKey account.url stored._user, textData := stored._password }
      false
    simp only at hread
    rw [hread, slotReadJobDone_stored env _ _ dialog hpw rfl]
    simp [HttpCredentials.ready, HttpCredentials.user, HttpCredentials.password,
      HttpCredentials.fetchUser, credentialSetting_setCredentialSetting, shownDialogs]
  · rw [hp]
    simp only [hf, startedWrites, startedReads, List.map]

/-- C5 at work: "alice" with "s3cr3t" is persisted into an empty keychain and
read back by the empty object. -/
theorem C5_round_trip_witness :
    (roundTrip sampleEnv (HttpCredentials.newWith "alice" "s3cr3t")
        (HttpCredentials.new false) sampleAccount ⟨[]⟩ (fun _ _ => ("", false))).map
      (fun done => (done.self.ready, done.self.user, done.self.password,
        shownDialogs done.effects))
      = some (true, "alice", "s3cr3t", []) :=
  (C5_round_trip sampleEnv (HttpCredentials.newWith "alice" "s3cr3t")
    (HttpCredentials.new false) sampleAccount ⟨[]⟩ (fun _ _ => ("", false))
    (by decide) rfl rfl).1

/-- While a read job is in flight, a call other than its end keeps it in
flight and keeps the user. -/
theorem step_waiting (env : Env) (w w1 : World) (c : Call) (effects : List Effect)
    (hinv : w.inv) (hne : w.readJobs ≠ []) (hc : c.isReadJobDone = false)
    (hstep : step env w c = some (w1, effects)) :
    w1.readJobs ≠ [] ∧ w1.creds._user = w.creds._user := by
  cases c with
  | fetch account =>
    simp only [step, Option.some.injEq, Prod.mk.injEq] at hstep
    obtain ⟨rfl, -⟩ := hstep
    rw [fetch_inProgress env w.creds account (hinv.2 hne).1]
    simpa [startedReads] using hne
  | readJobDone index textData error account answer => simp [Call.isReadJobDone] at hc
  | persist account =>
    simp only [step, Option.some.injEq, Prod.mk.injEq] at hstep
    obtain ⟨rfl, -⟩ := hstep
    simpa [HttpCredentials.persist, startedReads] using hne
  | invalidateToken account =>
    simp only [step, Option.some.injEq, Prod.mk.injEq] at hstep
    obtain ⟨rfl, -⟩ := hstep
    simpa [HttpCredentials.invalidateToken, startedReads] using hne

theorem run_waiting (env : Env) (calls : List Call) (w w2 : World) (effects : List Effect)
    (hinv : w.inv) (hne : w.readJobs ≠ [])
    (hcalls : ∀ c ∈ calls, c.isReadJobDone = false)
    (hrun : run env w calls = some (w2, effects)) :
    w2.readJobs ≠ [] ∧ w2.creds._user = w.creds._user := by
  induction calls generalizing w effects with
  | nil =>
    simp only [run, Option.some.injEq, Prod.mk.injEq] at hrun
    obtain ⟨rfl, -⟩ := hrun
    exact ⟨hne, rfl⟩
  | cons c rest ih =>
    obtain ⟨w1, effects1, effects2, hs, hr, -⟩ := run_cons env w w2 c rest effects hrun
    have h1 := step_waiting env w w1 c effects1 hinv hne
      (hcalls c (List.mem_cons_self _ _)) hs
    have h2 := ih w1 effects2 (step_inv env w w1 c effects1 hinv hs) h1.1
      (fun c1 hc1 => hcalls c1 (List.mem_cons_of_mem _ hc1)) hr
    exact ⟨h2.1, h2.2.trans h1.2⟩

/-- C6: a `fetch(acc)` starts a read on an object that is not ready and not
fetching; whatever calls other than the end of that read come next (`mid`),
the read is still the one in flight and the user is the configured one. When
the read then ends with an error or an empty secret, the password dialog is
shown once, naming the application and the user, and afterwards `ready()` is
the dialog's accepted flag. Accepted with `v`: `password()` is `v`, the user
is written to the account config, and exactly one write job is started, of `v`
under the key derived from the URL and the user. Cancelled: not ready, no
write job, the account untouched. -/
theorem C6_prompt_fallback (env : Env) (init : HttpCredentials) (acc account : Account)
    (mid : List Call) (w : World) (effects : List Effect)
    (textData : String) (error : KeychainError) (answer : String × Bool)
    (hready : init._ready = false) (hprog : init._fetchJobInProgress = false)
    (hmid : ∀ c ∈ mid, c.isReadJobDone = false)
    (hrun : run env (World.fresh init) (Call.fetch (some acc) :: mid) = some (w, effects))
    (hbad : textData = "" ∨ error ≠ KeychainError.NoError) :
    w.readJobs.length = 1 ∧
    w.creds.user = acc.credentialSetting userC ∧
    shownDialogs (w.creds.slotReadJobDone env ⟨textData, error, account⟩
        (fun _ _ => answer)).effects
      = [("Enter Password", passwordPrompt env w.creds.user)] ∧
    (w.creds.slotReadJobDone env ⟨textData, error, account⟩
        (fun _ _ => answer)).self.ready = answer.2 ∧
    (answer.2 = true →
      (w.creds.slotReadJobDone env ⟨textData, error, account⟩
          (fun _ _ => answer)).self.password = answer.1 ∧
      (w.creds.slotReadJobDone env ⟨textData, error, account⟩
          (fun _ _ => answer)).account
        = some (account.setCredentialSetting userC w.creds.user) ∧
      startedWrites (w.creds.slotReadJobDone env ⟨textData, error, account⟩
          (fun _ _ => answer)).effects
        = [{ service := env.appName, insecureFallback := false,
             key := env.keychainKey account.url w.creds.user, textData := answer.1 }]) ∧
    (answer.2 = false →
      startedWrites (w.creds.slotReadJobDone env ⟨textData, error, account⟩
          (fun _ _ => answer)).effects = [] ∧
      (w.creds.slotReadJobDone env ⟨textData, error, account⟩
          (fun _ _ => answer)).account = some account) := by
  obtain ⟨w0, effects0, effects1, hs, hr, -⟩ :=
    run_cons env (World.fresh init) w (Call.fetch (some acc)) mid effects hrun
  have hinit : (World.fresh init).creds = init := rfl
  simp only [step, hinit, fetch_notReady env init acc hprog hready, startedReads,
    World.fresh, List.nil_append, Option.some.injEq, Prod.mk.injEq] at hs
  obtain ⟨rfl, -⟩ := hs
  have hinv0 : World.inv
      { creds := { init.fetchUser acc with _fetchJobInProgress := true },
        readJobs := [(⟨env.appName, false,
          env.keychainKey acc.url (acc.credentialSetting userC)⟩ : ReadPasswordJob)] } := by
    simp [World.inv, HttpCredentials.fetchUser, hready]
  have hinv := run_inv env mid _ w effects1 hinv0 hr
  have hwait := run_waiting env mid _ w effects1 hinv0 (by simp) hmid hr
  have hnr : w.creds._ready = false := (hinv.2 hwait.1).2
  have hlen : w.readJobs.length = 1 := by
    have h1 := hinv.1
    have h2 : w.readJobs.length ≠ 0 := fun h => hwait.1 (List.length_eq_zero.mp h)
    omega
  refine ⟨hlen, hwait.2, ?_⟩
  cases hok : answer.2 with
  | true =>
    have hd : ((fun _ _ => answer : String → String → String × Bool)
        "Enter Password" (passwordPrompt env w.creds._user)).2 = true := hok
    rw [slotReadJobDone_accepted env w.creds ⟨textData, error, account⟩ _ hbad hd]
    exact ⟨rfl, rfl, fun _ => ⟨rfl, rfl, rfl⟩, fun h => by simp at h⟩
  | false =>
    have hd : ((fun _ _ => answer : String → String → String × Bool)
        "Enter Password" (passwordPrompt env w.creds._user)).2 = false := hok
    rw [slotReadJobDone_cancelled env w.creds ⟨textData, error, account⟩ _ hbad hd]
    exact ⟨rfl, hnr, fun h => by simp at h, fun _ => ⟨rfl, rfl⟩⟩

/-- C6 at work, the scenario of the claim: the configured user is "alice",
the keychain has no secret, the dialog returns "s3cr3t", accepted: the object
is ready, its password is "s3cr3t", one write job is started. -/
theorem C6_prompt_fallback_witness :
    ((HttpCredentials.mk "alice" "" false true).slotReadJobDone sampleEnv
        ⟨"", KeychainError.EntryNotFound, sampleAccount⟩
        (fun _ _ => ("s3cr3t", true))).self.ready = true ∧
    ((HttpCredentials.mk "alice" "" false true).slotReadJobDone sampleEnv
        ⟨"", KeychainError.EntryNotFound, sampleAccount⟩
        (fun _ _ => ("s3cr3t", true))).self.password = "s3cr3t" ∧
    startedWrites ((HttpCredentials.mk "alice" "" false true).slotReadJobDone sampleEnv
        ⟨"", KeychainError.EntryNotFound, sampleAccount⟩
        (fun _ _ => ("s3cr3t", true))).effects
      = [⟨"ownCloud", false, "alice:https://cloud.example/", "s3cr3t"⟩] :=
  have h := C6_prompt_fallback sampleEnv (HttpCredentials.new false) sampleAccount
    sampleAccount [] ⟨⟨"alice", "", false, true⟩, [sampleReadJob]⟩
    [Effect.startRead sampleReadJob] "" KeychainError.EntryNotFound ("s3cr3t", true)
    rfl rfl (by decide) rfl (Or.inl rfl)
  ⟨h.2.2.2.1, (h.2.2.2.2.1 rfl).1, (h.2.2.2.2.1 rfl).2.2⟩

/-! ### The Authorization header -/

theorem sameHeaderName_self (a : QByteArray) : sameHeaderName a a = true := by
  simp [sameHeaderName]

/-- The model of `toBase64` on the test vectors of RFC 4648, and the model of
`toUtf8` on a character outside Latin-1 and on one outside ASCII. -/
theorem toBase64_vectors :
    toBase64 (toUtf8 "") = bytes "" ∧
    toBase64 (toUtf8 "f") = bytes "Zg==" ∧
    toBase64 (toUtf8 "fo") = bytes "Zm8=" ∧
    toBase64 (toUtf8 "foo") = bytes "Zm9v" ∧
    toBase64 (toUtf8 "foob") = bytes "Zm9vYg==" ∧
    toBase64 (toUtf8 "fooba") = bytes "Zm9vYmE=" ∧
    toBase64 (toUtf8 "foobar") = bytes "Zm9vYmFy" ∧
    toUtf8 "€" = [0xe2, 0x82, 0xac] ∧
    toUtf8 "é" = [0xc3, 0xa9] := by
  decide

theorem rawHeader_setRawHeader (req : QNetworkRequest) (headerName headerValue : QByteArray) :
    (req.setRawHeader headerName headerValue).rawHeader headerName = some headerValue := by
  have hnone : List.find? (fun h => sameHeaderName h.1 headerName)
      (List.filter (fun h => !(sameHeaderName h.1 headerName)) req.rawHeaders) = none := by
    rw [List.find?_eq_none]
    intro h hmem
    have := (List.mem_filter.mp hmem).2
    simpa using this
  simp [QNetworkRequest.rawHeader, QNetworkRequest.setRawHeader, List.find?_append, hnone,
    sameHeaderName_self]

theorem setRawHeader_same (req : QNetworkRequest) (headerName headerValue : QByteArray) :
    (req.setRawHeader headerName headerValue).rawHeaders.filter
        (fun h => sameHeaderName h.1 headerName)
      = [(headerName, headerValue)] := by
  have hnil : List.filter (fun h => sameHeaderName h.1 headerName)
      (List.filter (fun h => !(sameHeaderName h.1 headerName)) req.rawHeaders) = [] := by
    rw [List.filter_eq_nil_iff]
    intro h hmem
    have := (List.mem_filter.mp hmem).2
    simpa using this
  simp [QNetworkRequest.setRawHeader, List.filter_append, hnil, sameHeaderName_self]

theorem setRawHeader_others (req : QNetworkRequest) (headerName headerValue : QByteArray) :
    (req.setRawHeader headerName headerValue).rawHeaders.filter
        (fun h => !(sameHeaderName h.1 headerName))
      = req.rawHeaders.filter (fun h => !(sameHeaderName h.1 headerName)) := by
  simp [QNetworkRequest.setRawHeader, List.filter_append, sameHeaderName_self,
    List.filter_filter]

/-- C9: the request that `createRequest` hands to the base class is the
incoming request stamped with the header `Authorization`, whose value is
"Basic " followed by the base64 of the UTF-8 bytes of `user()`, a colon and
the UTF-8 bytes of `password()`, the values of the object at the time of the
call. In the stamped request that value is the Authorization header's, it is
the only header of that name (compared without regard to case, so a header
the incoming request had is replaced), the headers of other names are the
incoming ones in their order, and URL and attributes are unchanged. -/
theorem C9_authorization_header {Reply : Type}
    (base : Operation → QNetworkRequest → Option QByteArray → Reply)
    (cred : HttpCredentials) (op : Operation) (request : QNetworkRequest)
    (outgoingData : Option QByteArray) :
    HttpCredentialsAccessManager.createRequest base cred op request outgoingData
      = base op
          (HttpCredentialsAccessManager.createRequest (fun _ req _ => req) cred op request
            outgoingData)
          outgoingData ∧
    (HttpCredentialsAccessManager.createRequest (fun _ req _ => req) cred op request
        outgoingData).rawHeader (bytes "Authorization")
      = some (bytes "Basic " ++
          toBase64 (toUtf8 cred.user ++ bytes ":" ++ toUtf8 cred.password)) ∧
    (HttpCredentialsAccessManager.createRequest (fun _ req _ => req) cred op request
        outgoingData).rawHeaders.filter
        (fun h => sameHeaderName h.1 (bytes "Authorization"))
      = [(bytes "Authorization", bytes "Basic " ++
          toBase64 (toUtf8 cred.user ++ bytes ":" ++ toUtf8 cred.password))] ∧
    (HttpCredentialsAccessManager.createRequest (fun _ req _ => req) cred op request
        outgoingData).rawHeaders.filter
        (fun h => !(sameHeaderName h.1 (bytes "Authorization")))
      = request.rawHeaders.filter
        (fun h => !(sameHeaderName h.1 (bytes "Authorization"))) ∧
    (HttpCredentialsAccessManager.createRequest (fun _ req _ => req) cred op request
        outgoingData).url = request.url ∧
    (HttpCredentialsAccessManager.createRequest (fun _ req _ => req) cred op request
        outgoingData).attributes = request.attributes :=
  ⟨rfl, rawHeader_setRawHeader request _ _, setRawHeader_same request _ _,
   setRawHeader_others request _ _, rfl, rfl⟩

/-- The request of RFC 7617's example, user "Aladdin" and password
"open sesame", sent over a request that already had an `authorization`
header: the old header is gone, the other header stays. -/
theorem createRequest_example :
    HttpCredentialsAccessManager.createRequest (fun _ req _ => req)
        (HttpCredentials.newWith "Aladdin" "open sesame") Operation.GetOperation
        { url := "https://cloud.example/status.php",
          rawHeaders := [(bytes "authorization", bytes "Basic b2xkOm9sZA=="),
                         (bytes "Accept", bytes "*/*")],
          attributes := [] }
        none
      = { url := "https://cloud.example/status.php",
          rawHeaders := [(bytes "Accept", bytes "*/*"),
                         (bytes "Authorization", bytes "Basic QWxhZGRpbjpvcGVuIHNlc2FtZQ==")],
          attributes := [] } := by
  decide

end Mirall
